import Mathlib

/-!
Verification development for the scraps-cli live event-streaming and
coordination subsystem.

The definitions below are shallow embeddings of the corresponding functions
of the repository:

* `Scraps.Sse` — the streaming-HTTP frame decoder, from the `readLoop`
  method of `internal/stream/client.go` (lines 64-110).  Go strings are
  modelled as `List Char`; `strings.TrimSpace`, `strings.HasPrefix` and
  `strings.TrimPrefix` are reproduced as list functions.
* `Scraps.Model` — the JSON value model and the decoded event structures
  from `internal/model/types.go`.
* `Scraps.Watch` — the watch TUI message processing (`processMessage`,
  `internal/cli/watch.go` lines 265-358) and the line renderer `printEvent`
  of the non-interactive watch command.
* `Scraps.Claim` — the claim command action (`src/commands/claim.ts`,
  and the Go variant `newClaimCmd`).
* `Scraps.Ws` — the WebSocket record decoder (`src/utils/websocket.ts`).
-/

namespace Scraps

namespace Sse

/-- Whitespace test used by `strings.TrimSpace` (ASCII subset of
`unicode.IsSpace`; the payloads of this protocol are ASCII JSON text). -/
def isSpace (c : Char) : Bool :=
  c == ' ' || c == '\t' || c == '\n' || c == '\r' || c == '\x0b' || c == '\x0c'

/-- `strings.TrimSpace`: drop whitespace from both ends of the line. -/
def trimSpace (s : List Char) : List Char :=
  ((s.dropWhile isSpace).reverse.dropWhile isSpace).reverse

/-- The characters of the SSE field marker string of `readLoop`. -/
def dataMarker : List Char := ['d', 'a', 't', 'a', ':']

/-- `strings.TrimPrefix`: remove the marker when present. -/
def trimMarker (pre s : List Char) : List Char :=
  if pre.isPrefixOf s then s.drop pre.length else s

/-- One iteration of the `readLoop` body of `internal/stream/client.go`
on a successfully read line: the state is the accumulation buffer
(`dataBuffer`), the second component is the list of records handed to
`OnMessage` by this iteration.

```go
line = strings.TrimSpace(line)
if line == "" {
    if dataBuffer.Len() > 0 { c.OnMessage([]byte(dataBuffer.String())); dataBuffer.Reset() }
    continue
}
if strings.HasPrefix(line, "data:") {
    data := strings.TrimSpace(strings.TrimPrefix(line, "data:"))
    dataBuffer.WriteString(data)
} else if strings.HasPrefix(line, "{") {
    c.OnMessage([]byte(line))
}
```
-/
def processLine (buf : List Char) (line : List Char) : List Char × List (List Char) :=
  let l := trimSpace line
  if l = [] then
    if buf ≠ [] then ([], [buf]) else (buf, [])
  else if dataMarker.isPrefixOf l then
    (buf ++ trimSpace (trimMarker dataMarker l), [])
  else if ['\x7b'].isPrefixOf l then
    (buf, [l])
  else
    (buf, [])

/-- The `readLoop` folded over a list of lines: final buffer and all
records delivered to `OnMessage`, in order. -/
def processLines (buf : List Char) : List (List Char) → List Char × List (List Char)
  | [] => (buf, [])
  | line :: rest =>
    let step := processLine buf line
    let restOut := processLines step.1 rest
    (restOut.1, step.2 ++ restOut.2)

/-- A line payload with no leading and no trailing whitespace (what
`strings.TrimSpace` leaves behind). -/
def Clean (p : List Char) : Prop :=
  p.dropWhile isSpace = p ∧ p.reverse.dropWhile isSpace = p.reverse

instance (p : List Char) : Decidable (Clean p) := by
  unfold Clean; infer_instance

theorem trimSpace_of_clean {p : List Char} (h : Clean p) : trimSpace p = p := by
  unfold trimSpace
  rw [h.1, h.2, List.reverse_reverse]

theorem head_not_space_of_clean {p : List Char} (h : Clean p) (hne : p ≠ []) :
    ∃ c q, p = c :: q ∧ isSpace c = false := by
  cases p with
  | nil => exact absurd rfl hne
  | cons c q =>
    refine ⟨c, q, rfl, ?_⟩
    by_contra hc
    have hc' : isSpace c = true := by
      cases hh : isSpace c with
      | false => exact absurd hh hc
      | true => rfl
    have h1 := h.1
    rw [List.dropWhile_cons, hc', if_pos rfl] at h1
    have hlen := congrArg List.length h1
    have hle : (q.dropWhile isSpace).length ≤ q.length := by
      exact (List.dropWhile_sublist isSpace).length_le
    simp only [List.length_cons] at hlen
    omega

theorem last_not_space_of_clean {p : List Char} (h : Clean p) (hne : p ≠ []) :
    ∃ c q, p.reverse = c :: q ∧ isSpace c = false := by
  have hrev : p.reverse ≠ [] := by
    simpa using hne
  cases hp : p.reverse with
  | nil => exact absurd hp hrev
  | cons c q =>
    refine ⟨c, q, rfl, ?_⟩
    by_contra hc
    have hc' : isSpace c = true := by
      cases hh : isSpace c with
      | false => exact absurd hh hc
      | true => rfl
    have h2 := h.2
    rw [hp, List.dropWhile_cons, hc', if_pos rfl] at h2
    have hlen := congrArg List.length h2
    have hle : (q.dropWhile isSpace).length ≤ q.length := by
      exact (List.dropWhile_sublist isSpace).length_le
    simp only [List.length_cons] at hlen
    omega

/-- Trimming a line consisting of the data marker followed by a clean,
non-empty payload leaves the line unchanged. -/
theorem trimSpace_marker_append {p : List Char} (h : Clean p) (hne : p ≠ []) :
    trimSpace (dataMarker ++ p) = dataMarker ++ p := by
  obtain ⟨c, q, hpq, hc⟩ := last_not_space_of_clean h hne
  have h1 : List.dropWhile isSpace (dataMarker ++ p) = dataMarker ++ p := by
    simp only [dataMarker, List.cons_append, List.nil_append, List.dropWhile_cons]
    simp [show isSpace 'd' = false from by decide]
  have h2 : (dataMarker ++ p).reverse.dropWhile isSpace = (dataMarker ++ p).reverse := by
    rw [List.reverse_append, hpq, List.cons_append, List.dropWhile_cons]
    simp [hc]
  unfold trimSpace
  rw [h1, h2, List.reverse_reverse]

theorem processLine_data {buf p : List Char} (h : Clean p) (hne : p ≠ []) :
    processLine buf (dataMarker ++ p) = (buf ++ p, []) := by
  unfold processLine
  rw [trimSpace_marker_append h hne]
  have hmne : dataMarker ++ p ≠ [] := by simp [dataMarker]
  rw [if_neg hmne]
  have hpre : dataMarker.isPrefixOf (dataMarker ++ p) = true := by
    rw [List.isPrefixOf_iff_prefix]
    exact List.prefix_append dataMarker p
  rw [hpre]
  simp only [if_pos trivial]
  unfold trimMarker
  rw [hpre]
  simp only [if_pos trivial]
  rw [show (dataMarker ++ p).drop dataMarker.length = p from List.drop_left dataMarker p]
  rw [trimSpace_of_clean h]

/-- Processing a block of clean, non-empty `data:` lines appends each
payload to the buffer and emits nothing. -/
theorem processLines_data_block (ps : List (List Char)) (buf : List Char)
    (h : ∀ p ∈ ps, p ≠ [] ∧ Clean p) :
    processLines buf (ps.map (fun p => dataMarker ++ p)) = (buf ++ ps.flatten, []) := by
  induction ps generalizing buf with
  | nil => simp [processLines]
  | cons p ps ih =>
    have hp := h p (List.mem_cons_self p ps)
    have hrest : ∀ q ∈ ps, q ≠ [] ∧ Clean q := fun q hq => h q (List.mem_cons_of_mem p hq)
    simp only [List.map_cons, processLines]
    rw [processLine_data hp.2 hp.1]
    rw [ih (buf ++ p) hrest]
    simp [List.flatten]

theorem processLines_append (buf : List Char) (l₁ l₂ : List (List Char)) :
    processLines buf (l₁ ++ l₂) =
      ((processLines (processLines buf l₁).1 l₂).1,
       (processLines buf l₁).2 ++ (processLines (processLines buf l₁).1 l₂).2) := by
  induction l₁ generalizing buf with
  | nil => simp [processLines]
  | cons line l₁ ih =>
    simp only [List.cons_append, processLines, List.append_eq]
    rw [ih (processLine buf line).1]
    simp [List.append_assoc]

theorem processLine_blank_flush (buf : List Char) (hbuf : buf ≠ []) :
    processLine buf [] = ([], [buf]) := by
  unfold processLine
  simp [trimSpace, hbuf]

theorem flatten_ne_nil_of_head_ne_nil {ps : List (List Char)} (hne : ps ≠ [])
    (h : ∀ p ∈ ps, p ≠ [] ∧ Clean p) : ps.flatten ≠ [] := by
  cases ps with
  | nil => exact absurd rfl hne
  | cons p ps =>
    have hp := (h p (List.mem_cons_self p ps)).1
    simp only [List.flatten_cons, ne_eq, List.append_eq_nil]
    intro hcon
    exact hp hcon.1

/-- C5.  For a block of consecutive `data:`-prefixed lines followed by the
first blank line, the frame decoder of `internal/stream/client.go` delivers
exactly one record: the concatenation of the line payloads (the blank line
excluded); before the blank terminator arrives nothing has been emitted and
the concatenation is held in the accumulation buffer. -/
theorem sse_record_is_concatenation (ps : List (List Char))
    (hne : ps ≠ []) (h : ∀ p ∈ ps, p ≠ [] ∧ Clean p) :
    (processLines [] (ps.map (fun p => dataMarker ++ p) ++ [[]])).2 = [ps.flatten] ∧
    (processLines [] (ps.map (fun p => dataMarker ++ p))).2 = [] ∧
    (processLines [] (ps.map (fun p => dataMarker ++ p))).1 = ps.flatten := by
  have hblock := processLines_data_block ps [] h
  simp only [List.nil_append] at hblock
  refine ⟨?_, by rw [hblock], by rw [hblock]⟩
  rw [processLines_append, hblock]
  have hflat : ps.flatten ≠ [] := flatten_ne_nil_of_head_ne_nil hne h
  simp only [processLines]
  rw [processLine_blank_flush ps.flatten hflat]
  simp [processLines]

/-- Witness for C5 at a concrete input: two data lines then a blank line
yield the single record `abc`. -/
theorem sse_record_is_concatenation_witness :
    (([['a'], ['b', 'c']] : List (List Char)) ≠ [] ∧
      ∀ p ∈ ([['a'], ['b', 'c']] : List (List Char)), p ≠ [] ∧ Clean p) ∧
    (processLines [] (([['a'], ['b', 'c']] : List (List Char)).map
        (fun p => dataMarker ++ p) ++ [[]])).2 = [['a', 'b', 'c']] :=
  ⟨⟨by decide, by decide⟩,
    (sse_record_is_concatenation [['a'], ['b', 'c']] (by decide) (by decide)).1⟩

theorem processLine_emits_nonempty (buf line : List Char) :
    ∀ r ∈ (processLine buf line).2, r ≠ [] := by
  unfold processLine
  intro r hr
  by_cases hblank : trimSpace line = []
  · by_cases hbuf : buf = []
    · simp [hblank, hbuf] at hr
    · simp [hblank, hbuf] at hr
      subst hr
      exact hbuf
  · by_cases hdata : dataMarker.isPrefixOf (trimSpace line) = true
    · simp [hblank, hdata] at hr
    · by_cases hjson : List.isPrefixOf ['\x7b'] (trimSpace line) = true
      · simp [hblank, hdata, hjson] at hr
        subst hr
        exact hblank
      · simp [hblank, hdata, hjson] at hr

/-- C10.  The frame decoder hands only non-empty payloads to `OnMessage`:
a blank line while the buffer is empty emits nothing (and leaves the state
unchanged), and a non-blank line that neither carries the `data:` marker
nor opens a JSON object is silently discarded — no emission, no state
change, no error. -/
theorem sse_emits_only_nonempty :
    (∀ (buf : List Char) (lines : List (List Char)),
      ∀ r ∈ (processLines buf lines).2, r ≠ []) ∧
    (∀ line : List Char, trimSpace line = [] →
      processLine [] line = ([], [])) ∧
    (∀ (buf line : List Char), trimSpace line ≠ [] →
      dataMarker.isPrefixOf (trimSpace line) = false →
      List.isPrefixOf ['\x7b'] (trimSpace line) = false →
      processLine buf line = (buf, [])) := by
  refine ⟨?_, ?_, ?_⟩
  · intro buf lines
    induction lines generalizing buf with
    | nil => simp [processLines]
    | cons line rest ih =>
      simp only [processLines]
      intro r hr
      rw [List.mem_append] at hr
      rcases hr with hr | hr
      · exact processLine_emits_nonempty buf line r hr
      · exact ih (processLine buf line).1 r hr
  · intro line hblank
    unfold processLine
    simp [hblank]
  · intro buf line hblank hdata hjson
    unfold processLine
    simp [hblank, hdata, hjson]

/-- Witness for C10 at concrete inputs: a JSON line emits its non-empty
payload, a lone blank line emits nothing, and a stray comment-style line is
discarded. -/
theorem sse_emits_only_nonempty_witness :
    ((['\x7b', 'x'] : List Char) ∈
        (processLines [] [['\x7b', 'x']]).2 → ['\x7b', 'x'] ≠ []) ∧
    (trimSpace [' '] = [] ∧ processLine [] [' '] = ([], [])) ∧
    (processLine ['a'] [':', 'o', 'k'] = (['a'], [])) :=
  ⟨fun hmem => sse_emits_only_nonempty.1 [] [['\x7b', 'x']] _ hmem,
   ⟨by decide, sse_emits_only_nonempty.2.1 [' '] (by decide)⟩,
   sse_emits_only_nonempty.2.2 ['a'] [':', 'o', 'k'] (by decide) (by decide) (by decide)⟩

end Sse

namespace Model

/-- JSON values, as produced by `encoding/json` into `map[string]any`
(numbers carry the integral values this protocol uses). -/
inductive Json where
  | null
  | bool (b : Bool)
  | num (n : Int)
  | str (s : String)
  | arr (elems : List Json)
  | obj (fields : List (String × Json))

/-- Object field access, `event["key"]`. -/
def Json.get : Json → String → Option Json
  | .obj fields, key => fields.lookup key
  | _, _ => none

/-- `v, _ := event["key"].(string)` — the string value of a field, or the
zero value when the field is absent or not a string.  Also the result of
`json.Unmarshal` into a `string` struct field that is missing. -/
def Json.getStr (j : Json) (key : String) : String :=
  match j.get key with
  | some (.str s) => s
  | _ => ""

/-- `v, _ := event["key"].(float64)` followed by `int(v)`. -/
def Json.getNum (j : Json) (key : String) : Int :=
  match j.get key with
  | some (.num n) => n
  | _ => 0

/-- Decoding a `[]string` struct field (`patterns`): the string elements of
the array, or the zero value when absent. -/
def Json.getStrList (j : Json) (key : String) : List String :=
  match j.get key with
  | some (.arr xs) => xs.filterMap (fun e => match e with | .str s => some s | _ => none)
  | _ => []

/-- `FileChange` of `internal/model/types.go`. -/
structure FileChange where
  action : String
  path : String
deriving DecidableEq

/-- `CommitAuthor` of `internal/model/types.go`: `name`/`email` come from
the structured object form; `raw` holds the value when the `author` field
is a plain string. -/
structure CommitAuthor where
  name : String
  email : String
  raw : String
deriving DecidableEq

/-- `watchEvent` of `internal/cli/watch.go` (the wall-clock `Time` field is
omitted: it never influences which events are kept or how they are
classified). -/
structure WatchEvent where
  type : String
  summary : String
  details : String
deriving DecidableEq

/-- Observable output of a command handler: a printed line, a decoded
record handed to the caller's callback, a warning on the error channel, or
process termination with an exit code. -/
inductive Action where
  | print (line : String)
  | emit (msg : Json)
  | warn (text : String)
  | exit (code : Nat)

end Model

namespace Watch

open Model

/-- `truncate` of the CLI helpers (`truncate(s string, maxLen int)`). -/
def truncate (s : String) (maxLen : Nat) : String :=
  if s.length ≤ maxLen then s
  else if maxLen ≤ 3 then s.take maxLen
  else s.take (maxLen - 3) ++ "..."

/-- The 7-character SHA display truncation used by the commit cases
(`if len(sha) > 7 { sha = sha[:7] }`). -/
def shaShort (sha : String) : String :=
  if sha.length > 7 then sha.take 7 else sha

/-- `json.Unmarshal(data, &baseMsg)` into `WsMessage{Type string}` on an
already-parsed value: fails on a non-object or on a non-string `type`
field, yields the zero value `""` when `type` is absent. -/
def wsType : Json → Option String
  | .obj fields =>
    match (Json.obj fields).get "type" with
    | some (.str s) => some s
    | none => some ""
    | some _ => none
  | _ => none

/-- The change glyph of the commit case of `processMessage`
(`"+"` add, `"-"` delete, `"~"` modify, `" "` otherwise). -/
def changeMarker (action : String) : String :=
  if action = "add" then "+"
  else if action = "delete" then "-"
  else if action = "modify" then "~"
  else " "

/-- Decoding the `files` array of a commit event into `[]FileChange`. -/
def decodeFiles (j : Json) : List FileChange :=
  match j.get "files" with
  | some (.arr xs) => xs.map (fun e => ⟨e.getStr "action", e.getStr "path"⟩)
  | _ => []

/-- The `Details` string of a commit event: one marker-prefixed line per
changed file, joined by newlines (empty when the list is empty). -/
def commitDetails (files : List FileChange) : String :=
  if files = [] then ""
  else String.intercalate "\n" (files.map (fun f => changeMarker f.action ++ " " ++ f.path))

/-- The event-type switch of `processMessage` (`internal/cli/watch.go`
lines 276-349): classification of one decoded record, given its `type`
string `t` and the raw message text `raw` (used by the default arm). -/
def classifyEvent (t : String) (j : Json) (raw : String) : WatchEvent :=
  if t = "commit" then
    let summary := truncate (j.getStr "message") 40
    let sha := j.getStr "sha"
    let summary := if sha ≠ "" then shaShort sha ++ " " ++ summary else summary
    { type := t, summary := summary, details := commitDetails (decodeFiles j) }
  else if t = "branch:create" ∨ t = "branch:delete" ∨ t = "branch:update" ∨ t = "ref:update" then
    let branchName := j.getStr "branch"
    let branchName := if branchName = "" then j.getStr "name" else branchName
    let branchName := if branchName = "" then j.getStr "ref" else branchName
    { type := t, summary := branchName, details := "" }
  else if t = "activity" then
    let act := (j.get "activity").getD Json.null
    if act.getStr "type" = "claim" then
      { type := "CLAIM", summary := act.getStr "agent_id",
        details := String.intercalate "\n" (act.getStrList "patterns") }
    else if act.getStr "type" = "release" then
      { type := "RELEASE", summary := act.getStr "agent_id",
        details := String.intercalate "\n" (act.getStrList "patterns") }
    else { type := t, summary := "", details := "" }
  else if t = "agent_claim" then
    let summary := j.getStr "agent_id"
    let summary :=
      if j.getStr "claim" ≠ "" then summary ++ " - " ++ truncate (j.getStr "claim") 30
      else summary
    { type := "CLAIM", summary := summary,
      details := String.intercalate "\n" (j.getStrList "patterns") }
  else if t = "agent_release" then
    { type := "RELEASE", summary := j.getStr "agent_id",
      details := String.intercalate "\n" (j.getStrList "patterns") }
  else
    { type := t, summary := raw, details := "" }

/-- The event types with a dedicated arm in `processMessage`'s switch. -/
def knownTypes : List String :=
  ["commit", "branch:create", "branch:delete", "branch:update", "ref:update",
   "activity", "agent_claim", "agent_release"]

/-- One inbound message: its raw text together with what `json.Unmarshal`
yields on it (`none` for malformed JSON). -/
structure RawMsg where
  text : String
  parsed : Option Json

/-- `watchModel`, restricted to the fields `processMessage` touches. -/
structure WatchModel where
  events : List WatchEvent
  eventCount : Nat
deriving DecidableEq

/-- `processMessage` of `internal/cli/watch.go` (lines 265-358): decode,
classify, prepend to the event list, count, and cap the history at 100. -/
def processMessage (m : WatchModel) (data : RawMsg) : WatchModel :=
  match data.parsed with
  | none => m
  | some j =>
    match wsType j with
    | none => m
    | some t =>
      let event := classifyEvent t j data.text
      let events := event :: m.events
      { events := if events.length > 100 then events.take 100 else events,
        eventCount := m.eventCount + 1 }

/-- The event a message decodes to, when it decodes at all. -/
def decodeMsg (data : RawMsg) : Option WatchEvent :=
  match data.parsed with
  | none => none
  | some j => (wsType j).map (fun t => classifyEvent t j data.text)

/-- A whole watch session: `processMessage` folded over the inbound
messages from the fresh model (`events: [], eventCount: 0`). -/
def runWatchModel (msgs : List RawMsg) : WatchModel :=
  msgs.foldl processMessage { events := [], eventCount := 0 }

/-- Go's `%v` rendering of the `[]any` patterns slice. -/
def fmtAnyList (xs : List String) : String :=
  "[" ++ String.intercalate " " xs ++ "]"

/-- `printEvent` of the non-interactive watch command: the lines printed
for one decoded event.  `marshal` stands for `json.MarshalIndent`, used
only by the default arm. -/
def printEvent (marshal : Json → String) (event : Json) : List Action :=
  let eventType := event.getStr "type"
  let agentID := event.getStr "agent_id"
  if eventType = "agent_join" then
    [Action.print ("  [" ++ eventType ++ "] " ++ agentID ++ " joined (" ++ event.getStr "role" ++ ")")]
  else if eventType = "agent_leave" then
    [Action.print ("  [" ++ eventType ++ "] " ++ agentID ++ " left (" ++ event.getStr "role" ++ ")")]
  else if eventType = "agent_claim" then
    [Action.print ("  [" ++ eventType ++ "] " ++ agentID ++ " claimed " ++ fmtAnyList (event.getStrList "patterns"))]
  else if eventType = "agent_release" then
    [Action.print ("  [" ++ eventType ++ "] " ++ agentID ++ " released " ++ fmtAnyList (event.getStrList "patterns"))]
  else if eventType = "file_write" then
    [Action.print ("  [" ++ eventType ++ "] " ++ agentID ++ " wrote " ++ event.getStr "path")]
  else if eventType = "file_chunk" then
    [Action.print ("  [" ++ eventType ++ "] " ++ agentID ++ " streaming " ++ event.getStr "path" ++
      " (" ++ toString (event.getNum "version") ++ " chars)")]
  else if eventType = "commit" then
    [Action.print ("  [" ++ eventType ++ "] " ++ shaShort (event.getStr "sha") ++ " " ++ event.getStr "message")]
  else if eventType = "error" then
    [Action.print ("  [" ++ eventType ++ "] " ++ agentID ++ ": " ++ event.getStr "error")]
  else
    [Action.print (marshal event)]

/-- The event types with a dedicated arm in `printEvent`'s switch. -/
def printEventKnownTypes : List String :=
  ["agent_join", "agent_leave", "agent_claim", "agent_release",
   "file_write", "file_chunk", "commit", "error"]

/-- The line `printEvent` prints for a `file_chunk` event. -/
def chunkLine (e : Json) : String :=
  "  [file_chunk] " ++ e.getStr "agent_id" ++ " streaming " ++ e.getStr "path" ++
    " (" ++ toString (e.getNum "version") ++ " chars)"

/-- The watch command's message callback over a message sequence: one
`printEvent` call per decoded event, outputs concatenated in order. -/
def renderEvents (marshal : Json → String) (events : List Json) : List Action :=
  (events.map (printEvent marshal)).flatten

/-- A `file_chunk` event record as the server sends it. -/
def chunkEventJson (agent path : String) (version : Int) : Json :=
  Json.obj [("type", Json.str "file_chunk"), ("agent_id", Json.str agent),
            ("path", Json.str path), ("version", Json.num version)]

theorem getStr_type_of_wsType {j : Json} {t : String} (h : wsType j = some t) :
    j.getStr "type" = t := by
  cases j with
  | obj fields =>
    cases hg : (Json.obj fields).get "type" with
    | none =>
      simp only [wsType, hg] at h
      simp only [Json.getStr, hg]
      simp at h
      simp [h]
    | some v =>
      simp only [wsType, hg] at h
      simp only [Json.getStr, hg]
      cases v <;> simp_all
  | null => simp [wsType] at h
  | bool b => simp [wsType] at h
  | num n => simp [wsType] at h
  | str s => simp [wsType] at h
  | arr xs => simp [wsType] at h

theorem processMessage_eq (m : WatchModel) (d : RawMsg) :
    processMessage m d =
      match decodeMsg d with
      | none => m
      | some e =>
        { events := if (e :: m.events).length > 100 then (e :: m.events).take 100
                    else e :: m.events,
          eventCount := m.eventCount + 1 } := by
  cases d with
  | mk text parsed =>
    cases parsed with
    | none => rfl
    | some j =>
      simp only [processMessage, decodeMsg]
      cases wsType j with
      | none => rfl
      | some t => rfl

/-- C3.  A record whose `type` is outside the known set degrades to the
raw fallback in both classifiers: `processMessage`'s default arm keeps the
event with the raw message text as its summary (and still counts and
stores it — the stream is not aborted), and `printEvent`'s default arm
prints the record's JSON;  totality of the embedded functions reflects
that neither path can raise. -/
theorem classify_unknown_event_fallback (t : String) (j : Json) (raw : String)
    (marshal : Json → String) (m : WatchModel)
    (ht : wsType j = some t) (hu : t ∉ knownTypes) (hp : t ∉ printEventKnownTypes) :
    classifyEvent t j raw = { type := t, summary := raw, details := "" } ∧
    (processMessage m ⟨raw, some j⟩).eventCount = m.eventCount + 1 ∧
    (processMessage m ⟨raw, some j⟩).events.head? =
      some { type := t, summary := raw, details := "" } ∧
    printEvent marshal j = [Action.print (marshal j)] := by
  have hu' : t ≠ "commit" ∧ t ≠ "branch:create" ∧ t ≠ "branch:delete" ∧
      t ≠ "branch:update" ∧ t ≠ "ref:update" ∧ t ≠ "activity" ∧
      t ≠ "agent_claim" ∧ t ≠ "agent_release" := by
    simpa [knownTypes, not_or] using hu
  have hp' : t ≠ "agent_join" ∧ t ≠ "agent_leave" ∧ t ≠ "agent_claim" ∧
      t ≠ "agent_release" ∧ t ≠ "file_write" ∧ t ≠ "file_chunk" ∧
      t ≠ "commit" ∧ t ≠ "error" := by
    simpa [printEventKnownTypes, not_or] using hp
  have hclass : classifyEvent t j raw = { type := t, summary := raw, details := "" } := by
    unfold classifyEvent
    simp [hu'.1, hu'.2.1, hu'.2.2.1, hu'.2.2.2.1, hu'.2.2.2.2.1,
      hu'.2.2.2.2.2.1, hu'.2.2.2.2.2.2.1, hu'.2.2.2.2.2.2.2]
  have hdec : decodeMsg ⟨raw, some j⟩ = some (classifyEvent t j raw) := by
    simp [decodeMsg, ht]
  refine ⟨hclass, ?_, ?_, ?_⟩
  · rw [processMessage_eq, hdec]
  · rw [processMessage_eq, hdec]
    simp only [hclass]
    split
    · rw [show (100 : Nat) = 99 + 1 from rfl, List.take_succ_cons]
      rfl
    · rfl
  · have hgt := getStr_type_of_wsType ht
    unfold printEvent
    simp [hgt, hp'.1, hp'.2.1, hp'.2.2.1, hp'.2.2.2.1, hp'.2.2.2.2.1,
      hp'.2.2.2.2.2.1, hp'.2.2.2.2.2.2.1, hp'.2.2.2.2.2.2.2]

/-- Witness for C3: a record of the unknown type `mystery`. -/
theorem classify_unknown_event_fallback_witness :
    (wsType (Json.obj [("type", Json.str "mystery")]) = some "mystery" ∧
      "mystery" ∉ knownTypes ∧ "mystery" ∉ printEventKnownTypes) ∧
    classifyEvent "mystery" (Json.obj [("type", Json.str "mystery")]) "rawtext" =
      { type := "mystery", summary := "rawtext", details := "" } :=
  ⟨⟨rfl, by decide, by decide⟩,
    (classify_unknown_event_fallback "mystery" (Json.obj [("type", Json.str "mystery")])
      "rawtext" (fun _ => "") ⟨[], 0⟩ rfl (by decide) (by decide)).1⟩

theorem take_append_take {α : Type} (n : Nat) (xs ys : List α) :
    (xs ++ ys.take n).take n = (xs ++ ys).take n := by
  rcases Nat.le_total n xs.length with h | h
  · rw [List.take_append_of_le_length h, List.take_append_of_le_length h]
  · rw [List.take_append_eq_append_take, List.take_append_eq_append_take, List.take_take]
    congr 2
    omega

theorem foldl_processMessage (msgs : List RawMsg) (evs : List WatchEvent) (n : Nat)
    (h : evs.length ≤ 100) :
    msgs.foldl processMessage ⟨evs, n⟩ =
      ⟨((msgs.filterMap decodeMsg).reverse ++ evs).take 100,
       n + (msgs.filterMap decodeMsg).length⟩ := by
  induction msgs generalizing evs n with
  | nil => simp [List.take_of_length_le h]
  | cons d msgs ih =>
    rw [List.foldl_cons, processMessage_eq]
    cases hd : decodeMsg d with
    | none =>
      rw [ih evs n h]
      simp [List.filterMap_cons, hd]
    | some e =>
      have hif : (if (e :: evs).length > 100 then (e :: evs).take 100 else e :: evs)
          = (e :: evs).take 100 := by
        by_cases hlen : (e :: evs).length > 100
        · simp [hlen]
        · rw [if_neg hlen, List.take_of_length_le (by omega)]
      simp only [hif]
      rw [ih ((e :: evs).take 100) (n + 1) (by rw [List.length_take]; omega)]
      rw [take_append_take]
      simp [List.filterMap_cons, hd, List.append_assoc]
      omega

/-- C9.  After any sequence of inbound messages, the watch TUI holds at
most 100 events, stored newest first (the history is the reversal of the
decoded events, truncated to 100), while `eventCount` counts every decoded
message without truncation. -/
theorem watch_history_bounded (msgs : List RawMsg) :
    (runWatchModel msgs).events = ((msgs.filterMap decodeMsg).reverse).take 100 ∧
    (runWatchModel msgs).events.length ≤ 100 ∧
    (runWatchModel msgs).eventCount = (msgs.filterMap decodeMsg).length := by
  unfold runWatchModel
  rw [show ({ events := [], eventCount := 0 } : WatchModel) = ⟨[], 0⟩ from rfl]
  rw [foldl_processMessage msgs [] 0 (by simp)]
  refine ⟨by simp, ?_, by simp⟩
  simp [List.length_take]

/-- The lines printed by a sequence of output actions. -/
def printedLines (as : List Action) : List String :=
  as.filterMap (fun a => match a with | Action.print s => some s | _ => none)

/-- C1 counterexample.  Two consecutive `file_chunk` events for the same
(agentId, path) key do not produce one "begin" line updated in place: the
watch renderer `printEvent` appends a fresh line for each event — two
appended lines, not one logical line. -/
theorem chunk_events_append_two_lines :
    printedLines (renderEvents (fun _ => "")
        [chunkEventJson "a1" "f.py" 1, chunkEventJson "a1" "f.py" 2]) =
      ["  [file_chunk] a1 streaming f.py (1 chars)",
       "  [file_chunk] a1 streaming f.py (2 chars)"] ∧
    (renderEvents (fun _ => "")
      [chunkEventJson "a1" "f.py" 1, chunkEventJson "a1" "f.py" 2]).length ≠ 1 := by
  constructor
  · decide
  · decide

theorem printEvent_file_chunk (marshal : Json → String) (e : Json)
    (he : e.getStr "type" = "file_chunk") :
    printEvent marshal e = [Action.print (chunkLine e)] := by
  unfold printEvent chunkLine
  simp [he]

/-- C1 as amended.  For every sequence of `file_chunk` events the watch
renderer appends exactly one new line per event, each line a pure function
of that event alone (agent, path, version) — so an intervening event for a
different agentId cannot affect another agent's lines, but there is no
in-place update: N events yield N appended lines. -/
theorem chunk_events_one_line_each (marshal : Json → String) (events : List Json)
    (h : ∀ e ∈ events, e.getStr "type" = "file_chunk") :
    renderEvents marshal events = events.map (fun e => Action.print (chunkLine e)) := by
  induction events with
  | nil => rfl
  | cons e es ih =>
    have he := h e (List.mem_cons_self e es)
    have hrest : ∀ x ∈ es, x.getStr "type" = "file_chunk" :=
      fun x hx => h x (List.mem_cons_of_mem e hx)
    have hsplit : renderEvents marshal (e :: es) =
        printEvent marshal e ++ renderEvents marshal es := by
      simp [renderEvents]
    rw [hsplit, printEvent_file_chunk marshal e he, ih hrest]
    rfl

/-- Witness for the amended C1: two chunk events by different agents on
the same path each get their own independent line. -/
theorem chunk_events_one_line_each_witness :
    (∀ e ∈ [chunkEventJson "a1" "f.py" 1, chunkEventJson "a2" "f.py" 5],
        Json.getStr e "type" = "file_chunk") ∧
    renderEvents (fun _ => "") [chunkEventJson "a1" "f.py" 1, chunkEventJson "a2" "f.py" 5] =
      ([chunkEventJson "a1" "f.py" 1, chunkEventJson "a2" "f.py" 5]).map
        (fun e => Action.print (chunkLine e)) :=
  ⟨by decide,
    chunk_events_one_line_each (fun _ => "")
      [chunkEventJson "a1" "f.py" 1, chunkEventJson "a2" "f.py" 5] (by decide)⟩

end Watch

namespace Reconnect

open Model

/-- Outcome of one pass of the auto-reconnect loop of the Go watch
command (`runWatch`): either the initial connect failed, or the
connection was established and the stream later closed. -/
inductive ConnectOutcome where
  | connectFailed
  | streamClosed
deriving DecidableEq

/-- The pause, in milliseconds, the Go watch loop takes before the next
connection attempt: `time.Sleep(2 * time.Second)` after a failed connect,
`time.Sleep(500 * time.Millisecond)` after a stream close. -/
def reconnectDelayMs : ConnectOutcome → Nat
  | .connectFailed => 2000
  | .streamClosed => 500

/-- What one pass of a watch loop decides: go around again after a pause,
or end the process. -/
inductive LoopDecision where
  | retryAfter (delayMs : Nat)
  | terminate (exitCode : Nat)
deriving DecidableEq

/-- One pass of the Go auto-reconnect loop: both arms (failed connect via
`continue`, stream close by falling through) reach the next iteration —
the loop never exits by itself. -/
def goWatchLoopStep (o : ConnectOutcome) : LoopDecision :=
  LoopDecision.retryAfter (reconnectDelayMs o)

/-- The `onClose` handler of the TS watch command
(`src/commands/watch.ts`): print `Disconnected` and `process.exit(0)`. -/
def tsWatchOnClose : List Action :=
  [Action.print "Disconnected", Action.exit 0]

/-- C2 counterexample.  On a stream close the TS watch command terminates
the process with exit code 0 instead of entering backoff and reconnecting;
and the Go watch loop's pauses are the constants 500 ms (after a close)
and 2000 ms (after a failed connect) — there is no attempt counter, hence
no min(cap, base·2^attempt) schedule and no counter to reset. -/
theorem watch_close_terminates_not_reconnects :
    Action.exit 0 ∈ tsWatchOnClose ∧
    reconnectDelayMs ConnectOutcome.streamClosed = 500 ∧
    reconnectDelayMs ConnectOutcome.connectFailed = 2000 := by
  refine ⟨?_, rfl, rfl⟩
  simp [tsWatchOnClose]

/-- C2 as amended.  The Go watch command reconnects unconditionally after
every outcome — a constant 2000 ms pause after a failed connect and a
constant 500 ms pause after a stream close, never terminating on its own
(delays are trivially non-decreasing across repeated identical outcomes,
with no attempt counter) — while the TS watch command does not reconnect:
on stream close it prints `Disconnected` and exits with code 0. -/
theorem watch_reconnect_constant_delay (o : ConnectOutcome) :
    goWatchLoopStep o = LoopDecision.retryAfter (reconnectDelayMs o) ∧
    (∀ c, goWatchLoopStep o ≠ LoopDecision.terminate c) ∧
    (reconnectDelayMs o = 500 ∨ reconnectDelayMs o = 2000) ∧
    tsWatchOnClose = [Action.print "Disconnected", Action.exit 0] := by
  refine ⟨rfl, ?_, ?_, rfl⟩
  · intro c hcon
    simp [goWatchLoopStep] at hcon
  · cases o
    · right; rfl
    · left; rfl

/-- Witness for the amended C2 at the stream-close outcome. -/
theorem watch_reconnect_constant_delay_witness :
    goWatchLoopStep ConnectOutcome.streamClosed =
      LoopDecision.retryAfter (reconnectDelayMs ConnectOutcome.streamClosed) ∧
    goWatchLoopStep ConnectOutcome.streamClosed ≠ LoopDecision.terminate 1 :=
  ⟨(watch_reconnect_constant_delay ConnectOutcome.streamClosed).1,
   (watch_reconnect_constant_delay ConnectOutcome.streamClosed).2.1 1⟩

end Reconnect

namespace Ws

open Model

/-- The per-message handler installed by `connectWebSocket`
(`src/utils/websocket.ts`): parse the record and hand the result to the
caller's `onMessage` callback; when parsing throws, log a warning and
continue.  `parse` stands for `JSON.parse` (`none` meaning it threw). -/
def handleWsRecord (parse : String → Option Json) (raw : String) : List Action :=
  match parse raw with
  | some msg => [Action.emit msg]
  | none => [Action.warn "Failed to parse WebSocket message:"]

/-- The handler over a whole inbound record sequence, outputs in order. -/
def handleWsRecords (parse : String → Option Json) : List String → List Action
  | [] => []
  | r :: rs => handleWsRecord parse r ++ handleWsRecords parse rs

/-- The decoded records a sequence of actions delivers to the caller. -/
def emittedMsgs (as : List Action) : List Json :=
  as.filterMap (fun a => match a with | Action.emit m => some m | _ => none)

def isWarn : Action → Bool
  | Action.warn _ => true
  | _ => false

def isExit : Action → Bool
  | Action.exit _ => true
  | _ => false

theorem ws_emitted_eq (parse : String → Option Json) (records : List String) :
    emittedMsgs (handleWsRecords parse records) = records.filterMap parse := by
  induction records with
  | nil => rfl
  | cons r rs ih =>
    cases hp : parse r <;>
      simp [handleWsRecords, handleWsRecord, emittedMsgs, hp, List.filterMap_cons,
        List.filterMap_append] <;>
      simpa [emittedMsgs] using ih

theorem ws_warn_count (parse : String → Option Json) (records : List String) :
    (handleWsRecords parse records).countP isWarn =
      records.countP (fun r => (parse r).isNone) := by
  induction records with
  | nil => rfl
  | cons r rs ih =>
    cases hp : parse r <;>
      simp [handleWsRecords, handleWsRecord, hp, List.countP_cons, List.countP_append,
        isWarn, ih]

theorem ws_never_exits (parse : String → Option Json) (records : List String) :
    ∀ a ∈ handleWsRecords parse records, isExit a = false := by
  induction records with
  | nil => simp [handleWsRecords]
  | cons r rs ih =>
    intro a ha
    simp only [handleWsRecords, List.mem_append] at ha
    rcases ha with ha | ha
    · cases hp : parse r <;> simp [handleWsRecord, hp] at ha <;> simp [ha, isExit]
    · exact ih a ha

/-- C4.  Interleaving malformed records among valid ones never hurts the
stream: the decoder hands the caller exactly the valid records in their
original order, logs one warning per malformed record, and never
terminates the process. -/
theorem ws_decoder_drops_malformed_only (parse : String → Option Json)
    (records : List String) :
    emittedMsgs (handleWsRecords parse records) = records.filterMap parse ∧
    (handleWsRecords parse records).countP isWarn =
      records.countP (fun r => (parse r).isNone) ∧
    ∀ a ∈ handleWsRecords parse records, isExit a = false :=
  ⟨ws_emitted_eq parse records, ws_warn_count parse records,
   ws_never_exits parse records⟩

/-- Witness for C4: one valid record interleaved with one malformed
record. -/
theorem ws_decoder_drops_malformed_only_witness :
    emittedMsgs (handleWsRecords
        (fun r => if r = "ok" then some Json.null else none) ["ok", "bad"]) =
      ["ok", "bad"].filterMap (fun r => if r = "ok" then some Json.null else none) :=
  (ws_decoder_drops_malformed_only
    (fun r => if r = "ok" then some Json.null else none) ["ok", "bad"]).1

end Ws

namespace Claim

open Model

/-- `ClaimConflict` of `internal/model/types.go` / one entry of the
`conflicts` array the TS client receives. -/
structure ClaimConflict where
  agentName : String
  agentId : String
  patterns : List String
  claim : String
deriving DecidableEq

/-- `ClaimResponse`: `type` is `"claim_conflict"` on a conflict verdict;
a granted claim carries `expires_at`. -/
structure ClaimResponse where
  type : String
  conflicts : List ClaimConflict
  expiresAt : Option String
deriving DecidableEq

/-- `ClaimRequest` wire body (`agent_id`, `patterns`, `claim`,
`ttl_seconds`). -/
structure ClaimRequest where
  agentId : String
  patterns : List String
  claim : String
  ttlSeconds : Nat
deriving DecidableEq

/-- Agent identity selection of the claim command
(`src/commands/claim.ts` line 57): the supplied id when truthy, else a
fresh cli- plus the first 8 characters of a random UUID; the random draw
is the `uuid` parameter. -/
def chooseAgentId (provided : Option String) (uuid : String) : String :=
  match provided with
  | some id => if id = "" then "cli-" ++ uuid.take 8 else id
  | none => "cli-" ++ uuid.take 8

/-- The line printed for one competing claim (`claim.ts` line 73): the
competitor's name (or its truncated id), its patterns, its description;
terminal colouring dropped. -/
def conflictLine (c : ClaimConflict) : String :=
  "  " ++ (if c.agentName = "" then c.agentId.take 8 else c.agentName) ++ ": " ++
    String.intercalate ", " c.patterns ++ " - \"" ++ c.claim ++ "\""

/-- The claim command's handling of the server verdict (`claim.ts` lines
70-82): on `claim_conflict` print the header and one line per competitor
and exit 1; otherwise print the success lines (echoing the agent id) and
let the process end normally with exit code 0. -/
def handleClaimResult (agentId : String) (patterns : List String)
    (result : ClaimResponse) : List String × Nat :=
  if result.type = "claim_conflict" then
    ("Claim conflict detected:" :: result.conflicts.map conflictLine, 1)
  else
    (["Claimed patterns: " ++ String.intercalate ", " patterns,
      "Agent ID: " ++ agentId] ++
      (match result.expiresAt with
       | some e => ["Expires: " ++ e]
       | none => []), 0)

/-- The whole claim command round trip: choose the agent identity, build
the wire request, send it (`server` is the round trip), handle the
verdict.  Result: the request that was sent, the printed lines, the exit
code. -/
def runClaimCommand (provided : Option String) (uuid : String)
    (patterns : List String) (message : String) (ttl : Nat)
    (server : ClaimRequest → ClaimResponse) :
    ClaimRequest × List String × Nat :=
  let agentId := chooseAgentId provided uuid
  let req : ClaimRequest := ⟨agentId, patterns, message, ttl⟩
  (req, handleClaimResult agentId patterns (server req))

/-- C6.  A conflict verdict makes the claim command print the full
competitor list — one line per competing claim, carrying that agent's
identity, its patterns and its claim description — and exit with code 1;
a granted (non-conflict) verdict exits with code 0. -/
theorem claim_conflict_full_list_exit_codes (agentId : String)
    (patterns : List String) (r : ClaimResponse) :
    (r.type = "claim_conflict" →
      (handleClaimResult agentId patterns r).2 = 1 ∧
      (handleClaimResult agentId patterns r).1 =
        "Claim conflict detected:" :: r.conflicts.map conflictLine ∧
      ∀ c ∈ r.conflicts, conflictLine c ∈ (handleClaimResult agentId patterns r).1) ∧
    (r.type ≠ "claim_conflict" →
      (handleClaimResult agentId patterns r).2 = 0) := by
  constructor
  · intro hc
    refine ⟨by simp [handleClaimResult, hc], by simp [handleClaimResult, hc], ?_⟩
    intro c hcmem
    simp only [handleClaimResult, hc, if_pos trivial]
    right
    exact List.mem_map_of_mem conflictLine hcmem
  · intro hnc
    simp [handleClaimResult, hnc]

/-- Witness for C6: one conflict verdict with a single competitor, one
granted verdict. -/
theorem claim_conflict_full_list_exit_codes_witness :
    (("claim_conflict" : String) = "claim_conflict" ∧
      (handleClaimResult "me" ["x"]
        ⟨"claim_conflict", [⟨"Alice", "a1", ["src/**"], "refactor"⟩], none⟩).2 = 1) ∧
    (("" : String) ≠ "claim_conflict" ∧
      (handleClaimResult "me" ["x"] ⟨"", [], some "T"⟩).2 = 0) :=
  ⟨⟨rfl, ((claim_conflict_full_list_exit_codes "me" ["x"]
      ⟨"claim_conflict", [⟨"Alice", "a1", ["src/**"], "refactor"⟩], none⟩).1 rfl).1⟩,
   ⟨by decide, (claim_conflict_full_list_exit_codes "me" ["x"]
      ⟨"", [], some "T"⟩).2 (by decide)⟩⟩

/-- C7.  When the caller supplies no agent id, the claim command draws a
fresh cli-prefixed identifier from the random UUID, sends exactly that id
in the request body, and on a granted verdict echoes the same id back in
the Agent ID output line. -/
theorem claim_generated_id_echoed (uuid : String) (patterns : List String)
    (message : String) (ttl : Nat) (server : ClaimRequest → ClaimResponse)
    (hg : (server ⟨"cli-" ++ uuid.take 8, patterns, message, ttl⟩).type ≠ "claim_conflict") :
    (runClaimCommand none uuid patterns message ttl server).1.agentId =
      "cli-" ++ uuid.take 8 ∧
    ("Agent ID: " ++ ("cli-" ++ uuid.take 8)) ∈
      (runClaimCommand none uuid patterns message ttl server).2.1 := by
  constructor
  · rfl
  · simp [runClaimCommand, chooseAgentId, handleClaimResult, hg]

/-- Witness for C7 with a concrete UUID and an always-granting server. -/
theorem claim_generated_id_echoed_witness :
    (((fun _ => (⟨"", [], some "T"⟩ : ClaimResponse)) :
        ClaimRequest → ClaimResponse)
      ⟨"cli-" ++ "0123456789abcdef".take 8, ["g"], "m", 300⟩).type ≠ "claim_conflict" ∧
    ("Agent ID: " ++ ("cli-" ++ "0123456789abcdef".take 8)) ∈
      (runClaimCommand none "0123456789abcdef" ["g"] "m" 300
        (fun _ => ⟨"", [], some "T"⟩)).2.1 :=
  ⟨by decide,
   (claim_generated_id_echoed "0123456789abcdef" ["g"] "m" 300
      (fun _ => ⟨"", [], some "T"⟩) (by decide)).2⟩

end Claim

namespace Log

open Model

/-- The author display resolution of the log command (`newLogCmd`):
`author.name` when non-empty, else the raw string `author` value. -/
def resolveAuthor (a : CommitAuthor) : String :=
  if a.name ≠ "" then a.name
  else if a.raw ≠ "" then a.raw
  else ""

/-- C8.  The displayed commit author resolves from the structured
`author.name` field when it is non-empty, otherwise from the raw string
`author` field, in that priority order. -/
theorem author_resolution_priority (a : CommitAuthor) :
    (a.name ≠ "" → resolveAuthor a = a.name) ∧
    (a.name = "" → resolveAuthor a = a.raw) := by
  constructor
  · intro h
    simp [resolveAuthor, h]
  · intro h
    by_cases hr : a.raw = "" <;> simp [resolveAuthor, h, hr]

/-- Witness for C8: a structured author wins, a raw-string author is the
fallback. -/
theorem author_resolution_priority_witness :
    (("Alice" : String) ≠ "" ∧
      resolveAuthor ⟨"Alice", "", "Alice <a@x>"⟩ = "Alice") ∧
    resolveAuthor ⟨"", "", "bob <b@x>"⟩ = "bob <b@x>" :=
  ⟨⟨by decide, (author_resolution_priority ⟨"Alice", "", "Alice <a@x>"⟩).1 (by decide)⟩,
   (author_resolution_priority ⟨"", "", "bob <b@x>"⟩).2 rfl⟩

end Log

end Scraps
